import Mathlib

/-!
Verification of the lynkc backend's channel core (channel model, codec,
validator, password subsystem, and the fetch/update/create handlers) against
its natural-language specification.

The Rust sources are shallowly embedded: pure functions become Lean functions
over `Nat`, `String` and lists; `usize` arithmetic is `Nat` with an explicit
`2 ^ 64` overflow bound; fallible code returns `Option` or `Except`.  The
external collaborators (serde_json, the base64 crate, sha2, subtle, uuid, the
redis store) are modelled by executable Lean functions faithful to their
documented behaviour, and the handlers are parameterised by the store's
replies so that their effects (writes, TTL refreshes) are explicit data.
-/

/-! ## Characters and digits -/

/-- The decimal digit character for `d < 10`. -/
def digitChar (d : Nat) : Char := Char.ofNat (48 + d)

/-- Lowercase hexadecimal digit character for `d < 16`. -/
def hexDigitChar (d : Nat) : Char :=
  if d < 10 then Char.ofNat (48 + d) else Char.ofNat (87 + d)

/-- The opening brace character (spelled via its code point). -/
def lbrace : Char := Char.ofNat 123

/-- The closing brace character (spelled via its code point). -/
def rbrace : Char := Char.ofNat 125

/-- Decimal digits of `n`, most significant first (the form `u64` values are
printed in by serde_json). -/
def natChars (n : Nat) : List Char :=
  if n < 10 then [digitChar n] else natChars (n / 10) ++ [digitChar (n % 10)]
termination_by n
decreasing_by omega

theorem natChars_ne_nil (n : Nat) : natChars n ≠ [] := by
  rw [natChars]
  split <;> simp

/-! ## UTF-8 encoding

Rust strings are UTF-8 byte sequences; `str::len` and `str::as_bytes` are
byte-level.  We embed Rust `String` as Lean `String` (a sequence of Unicode
scalar values, exactly Rust `char`s) together with the UTF-8 encoding below,
which follows RFC 3629 as the Rust standard library implements it. -/

/-- UTF-8 encoding of one Unicode scalar value. -/
def utf8EncodeChar (c : Char) : List Nat :=
  if c.toNat < 128 then [c.toNat]
  else if c.toNat < 2048 then [192 + c.toNat / 64, 128 + c.toNat % 64]
  else if c.toNat < 65536 then
    [224 + c.toNat / 4096, 128 + c.toNat / 64 % 64, 128 + c.toNat % 64]
  else
    [240 + c.toNat / 262144, 128 + c.toNat / 4096 % 64, 128 + c.toNat / 64 % 64,
      128 + c.toNat % 64]

/-- UTF-8 encoding of a character sequence. -/
def utf8Bytes : List Char → List Nat
  | [] => []
  | c :: cs => utf8EncodeChar c ++ utf8Bytes cs

/-- The bytes of a Rust `String` (`str::as_bytes`). -/
def strBytes (s : String) : List Nat := utf8Bytes s.data

/-- The byte length of a Rust `String` (`str::len`). -/
def strLen (s : String) : Nat := (strBytes s).length

theorem utf8EncodeChar_ne_nil (c : Char) : utf8EncodeChar c ≠ [] := by
  rw [utf8EncodeChar]
  split <;> try simp
  split <;> try simp
  split <;> simp

theorem char_toNat_lt (c : Char) : c.toNat < 1114112 := by
  have h := c.valid
  rcases h with h | ⟨_, h⟩
  · exact Nat.lt_trans h (by norm_num)
  · exact h

theorem char_toNat_inj {a b : Char} (h : a.toNat = b.toNat) : a = b := by
  rcases a with ⟨⟨a, ha⟩, _⟩
  rcases b with ⟨⟨b, hb⟩, _⟩
  simp only [Char.toNat, UInt32.toNat] at h
  subst h
  rfl

/-- Decoder for the first UTF-8 scalar of a byte list, used only to prove the
encoding injective. -/
def utf8Dec : List Nat → Option (Nat × List Nat)
  | [] => none
  | b0 :: rest =>
    if b0 < 128 then some (b0, rest)
    else if b0 < 224 then
      match rest with
      | b1 :: rest2 => some ((b0 - 192) * 64 + (b1 - 128), rest2)
      | [] => none
    else if b0 < 240 then
      match rest with
      | b1 :: b2 :: rest2 =>
          some ((b0 - 224) * 4096 + (b1 - 128) * 64 + (b2 - 128), rest2)
      | _ => none
    else
      match rest with
      | b1 :: b2 :: b3 :: rest2 =>
          some ((b0 - 240) * 262144 + (b1 - 128) * 4096 + (b2 - 128) * 64 + (b3 - 128), rest2)
      | _ => none

theorem utf8Dec_encode (c : Char) (r : List Nat) :
    utf8Dec (utf8EncodeChar c ++ r) = some (c.toNat, r) := by
  have hv := char_toNat_lt c
  rw [utf8EncodeChar]
  split
  case isTrue h1 =>
    simp only [List.cons_append, List.nil_append, utf8Dec, if_pos h1]
  case isFalse h1 =>
    split
    case isTrue h2 =>
      simp only [List.cons_append, List.nil_append, utf8Dec]
      rw [if_neg (by omega), if_pos (by omega),
        show (192 + c.toNat / 64 - 192) * 64 + (128 + c.toNat % 64 - 128) = c.toNat
          from by omega]
    case isFalse h2 =>
      split
      case isTrue h3 =>
        simp only [List.cons_append, List.nil_append, utf8Dec]
        rw [if_neg (by omega), if_neg (by omega), if_pos (by omega),
          show (224 + c.toNat / 4096 - 224) * 4096 + (128 + c.toNat / 64 % 64 - 128) * 64 +
              (128 + c.toNat % 64 - 128) = c.toNat from by omega]
      case isFalse h3 =>
        simp only [List.cons_append, List.nil_append, utf8Dec]
        rw [if_neg (by omega), if_neg (by omega), if_neg (by omega),
          show (240 + c.toNat / 262144 - 240) * 262144 + (128 + c.toNat / 4096 % 64 - 128) * 4096 +
              (128 + c.toNat / 64 % 64 - 128) * 64 + (128 + c.toNat % 64 - 128) = c.toNat
            from by omega]

/-- A UTF-8 encoded character followed by arbitrary bytes determines both the
character and the following bytes: the encoding is prefix-determined. -/
theorem utf8EncodeChar_append_inj {a b : Char} {r₁ r₂ : List Nat}
    (h : utf8EncodeChar a ++ r₁ = utf8EncodeChar b ++ r₂) : a = b ∧ r₁ = r₂ := by
  have ha := utf8Dec_encode a r₁
  have hb := utf8Dec_encode b r₂
  rw [h, hb] at ha
  simp only [Option.some.injEq, Prod.mk.injEq] at ha
  exact ⟨(char_toNat_inj ha.1).symm, ha.2.symm⟩

theorem utf8Bytes_inj : ∀ {xs ys : List Char}, utf8Bytes xs = utf8Bytes ys → xs = ys
  | [], [] => by intro _; rfl
  | [], c :: cs => by
      intro h
      simp only [utf8Bytes] at h
      exact absurd h.symm (by simp [utf8EncodeChar_ne_nil c])
  | c :: cs, [] => by
      intro h
      simp only [utf8Bytes] at h
      exact absurd h (by simp [utf8EncodeChar_ne_nil c])
  | c :: cs, d :: ds => by
      intro h
      simp only [utf8Bytes] at h
      obtain ⟨hc, hr⟩ := utf8EncodeChar_append_inj h
      rw [hc, utf8Bytes_inj hr]

theorem strBytes_inj {s t : String} (h : strBytes s = strBytes t) : s = t := by
  rcases s with ⟨ls⟩
  rcases t with ⟨lt⟩
  have := utf8Bytes_inj h
  simp only [String.data] at this
  rw [this]

/-! ## Constant-time byte comparison (the subtle crate)

`subtle::ConstantTimeEq` for byte slices declares the slices equal when their
lengths agree and the bitwise OR of the XOR of each byte pair is zero.  The
constant-time execution itself is a timing property outside this embedding;
its value is the plain equality proved below. -/

/-- `subtle`'s slice comparison: length check plus an OR-accumulated XOR. -/
def ctEq (a b : List Nat) : Bool :=
  (a.length == b.length) &&
    ((List.zipWith (fun x y => x ^^^ y) a b).foldl (fun acc v => acc ||| v) 0 == 0)

theorem or_eq_zero_parts {a b : Nat} (h : a ||| b = 0) : a = 0 ∧ b = 0 := by
  constructor <;>
    · apply Nat.eq_of_testBit_eq
      intro i
      have hbit := congrArg (fun n => Nat.testBit n i) h
      simp only [Nat.testBit_or, Nat.zero_testBit, Bool.or_eq_false_iff] at hbit
      simp [hbit.1, hbit.2]

theorem foldl_or_eq_zero (l : List Nat) (acc : Nat) :
    (l.foldl (fun acc v => acc ||| v) acc = 0) ↔ (acc = 0 ∧ ∀ v ∈ l, v = 0) := by
  induction l generalizing acc with
  | nil => simp
  | cons x xs ih =>
    simp only [List.foldl_cons, ih, List.mem_cons]
    constructor
    · rintro ⟨h, hall⟩
      obtain ⟨ha, hx⟩ := or_eq_zero_parts h
      exact ⟨ha, fun v hv => hv.elim (fun e => e ▸ hx) (hall v)⟩
    · rintro ⟨ha, hall⟩
      refine ⟨?_, fun v hv => hall v (Or.inr hv)⟩
      rw [ha, hall x (Or.inl rfl)]
      rfl

theorem ctEq_iff_eq (a b : List Nat) : ctEq a b = true ↔ a = b := by
  unfold ctEq
  simp only [Bool.and_eq_true, beq_iff_eq]
  constructor
  · rintro ⟨hlen, hz⟩
    rw [foldl_or_eq_zero] at hz
    obtain ⟨-, hall⟩ := hz
    apply List.ext_get hlen
    intro i h1 h2
    have hmem : a.get ⟨i, h1⟩ ^^^ b.get ⟨i, h2⟩ ∈ List.zipWith (fun x y => x ^^^ y) a b := by
      have hi : (List.zipWith (fun x y => x ^^^ y) a b).get
          ⟨i, by rw [List.length_zipWith]; omega⟩ =
          a.get ⟨i, h1⟩ ^^^ b.get ⟨i, h2⟩ := by
        simp [List.getElem_zipWith]
      rw [← hi]
      exact List.get_mem _ _ _
    exact Nat.xor_eq_zero.mp (hall _ hmem)
  · rintro rfl
    refine ⟨rfl, ?_⟩
    rw [foldl_or_eq_zero]
    refine ⟨rfl, fun v hv => ?_⟩
    rw [List.zipWith_same] at hv
    obtain ⟨x, hx, rfl⟩ := List.mem_map.mp hv
    exact Nat.xor_self x

/-! ## SHA-256 (the sha2 crate)

Executable model of FIPS 180-4 SHA-256 over byte lists, with 32-bit words as
`Nat` reduced modulo `2 ^ 32`.  `hash_channel_password` below matches
`channel.rs`: hash the password's UTF-8 bytes and format the digest as
lowercase hex. -/

/-- Truncation to a 32-bit word. -/
def w32 (n : Nat) : Nat := n % 4294967296

/-- 32-bit right rotation. -/
def rotr (k x : Nat) : Nat := w32 ((x >>> k) ||| (x <<< (32 - k)))

def bigSigma0 (x : Nat) : Nat := rotr 2 x ^^^ rotr 13 x ^^^ rotr 22 x

def bigSigma1 (x : Nat) : Nat := rotr 6 x ^^^ rotr 11 x ^^^ rotr 25 x

def smallSigma0 (x : Nat) : Nat := rotr 7 x ^^^ rotr 18 x ^^^ (x >>> 3)

def smallSigma1 (x : Nat) : Nat := rotr 17 x ^^^ rotr 19 x ^^^ (x >>> 10)

def shaCh (x y z : Nat) : Nat := (x &&& y) ^^^ ((x ^^^ 4294967295) &&& z)

def shaMaj (x y z : Nat) : Nat := (x &&& y) ^^^ (x &&& z) ^^^ (y &&& z)

/-- The SHA-256 round constants (FIPS 180-4, in decimal). -/
def shaK : List Nat :=
  [1116352408, 1899447441, 3049323471, 3921009573,
   961987163, 1508970993, 2453635748, 2870763221,
   3624381080, 310598401, 607225278, 1426881987,
   1925078388, 2162078206, 2614888103, 3248222580,
   3835390401, 4022224774, 264347078, 604807628,
   770255983, 1249150122, 1555081692, 1996064986,
   2554220882, 2821834349, 2952996808, 3210313671,
   3336571891, 3584528711, 113926993, 338241895,
   666307205, 773529912, 1294757372, 1396182291,
   1695183700, 1986661051, 2177026350, 2456956037,
   2730485921, 2820302411, 3259730800, 3345764771,
   3516065817, 3600352804, 4094571909, 275423344,
   430227734, 506948616, 659060556, 883997877,
   958139571, 1322822218, 1537002063, 1747873779,
   1955562222, 2024104815, 2227730452, 2361852424,
   2428436474, 2756734187, 3204031479, 3329325298]

/-- SHA-256 working state: the eight 32-bit registers. -/
structure ShaState where
  a : Nat
  b : Nat
  c : Nat
  d : Nat
  e : Nat
  f : Nat
  g : Nat
  h : Nat
deriving Repr, DecidableEq

/-- Initial hash value. -/
def shaInit : ShaState :=
  ⟨1779033703, 3144134277, 1013904242, 2773480762,
   1359893119, 2600822924, 528734635, 1541459225⟩

/-- One compression round. -/
def shaRound (s : ShaState) (kw : Nat × Nat) : ShaState :=
  let t1 := w32 (s.h + bigSigma1 s.e + shaCh s.e s.f s.g + kw.1 + kw.2)
  let t2 := w32 (bigSigma0 s.a + shaMaj s.a s.b s.c)
  ⟨w32 (t1 + t2), s.a, s.b, s.c, w32 (s.d + t1), s.e, s.f, s.g⟩

/-- Pointwise modular addition of states. -/
def shaAdd (x y : ShaState) : ShaState :=
  ⟨w32 (x.a + y.a), w32 (x.b + y.b), w32 (x.c + y.c), w32 (x.d + y.d),
   w32 (x.e + y.e), w32 (x.f + y.f), w32 (x.g + y.g), w32 (x.h + y.h)⟩

/-- Extend 16 message-schedule words to 64. -/
def shaExtend (fuel : Nat) (ws : List Nat) : List Nat :=
  match fuel with
  | 0 => ws
  | fuel + 1 =>
    let n := ws.length
    shaExtend fuel (ws ++
      [w32 (smallSigma1 (ws.getD (n - 2) 0) + ws.getD (n - 7) 0 +
        smallSigma0 (ws.getD (n - 15) 0) + ws.getD (n - 16) 0)])

/-- Big-endian 32-bit words from bytes (length a multiple of 4). -/
def bytesToWords : List Nat → List Nat
  | b0 :: b1 :: b2 :: b3 :: rest =>
    (b0 * 16777216 + b1 * 65536 + b2 * 256 + b3) :: bytesToWords rest
  | _ => []

/-- Split a word list into 16-word blocks. -/
def wordBlocks : List Nat → List (List Nat)
  | w0 :: w1 :: w2 :: w3 :: w4 :: w5 :: w6 :: w7 ::
    w8 :: w9 :: w10 :: w11 :: w12 :: w13 :: w14 :: w15 :: rest =>
    [w0, w1, w2, w3, w4, w5, w6, w7, w8, w9, w10, w11, w12, w13, w14, w15] ::
      wordBlocks rest
  | _ => []

/-- Big-endian bytes of `n`, `k` bytes wide. -/
def natToBytesBE (k n : Nat) : List Nat :=
  match k with
  | 0 => []
  | k + 1 => natToBytesBE k (n / 256) ++ [n % 256]

/-- SHA-256 padding: append `0x80`, zeros to 56 mod 64, then the bit length
as a 64-bit big-endian integer. -/
def shaPad (msg : List Nat) : List Nat :=
  msg ++ 128 :: List.replicate ((64 - (msg.length + 9) % 64) % 64) 0 ++
    natToBytesBE 8 ((8 * msg.length) % 18446744073709551616)

/-- Process one 512-bit block. -/
def shaBlock (s : ShaState) (block : List Nat) : ShaState :=
  shaAdd s ((List.zip shaK (shaExtend 48 block)).foldl shaRound s)

/-- The SHA-256 state after absorbing a whole byte message. -/
def sha256 (msg : List Nat) : ShaState :=
  (wordBlocks (bytesToWords (shaPad msg))).foldl shaBlock shaInit

/-- Lowercase-hex rendering of a 32-bit word, 8 digits. -/
def wordHex (w : Nat) : List Char :=
  [hexDigitChar (w / 268435456 % 16), hexDigitChar (w / 16777216 % 16),
   hexDigitChar (w / 1048576 % 16), hexDigitChar (w / 65536 % 16),
   hexDigitChar (w / 4096 % 16), hexDigitChar (w / 256 % 16),
   hexDigitChar (w / 16 % 16), hexDigitChar (w % 16)]

/-- The 64-character lowercase-hex digest of a byte message. -/
def sha256Hex (msg : List Nat) : List Char :=
  let s := sha256 msg
  wordHex s.a ++ wordHex s.b ++ wordHex s.c ++ wordHex s.d ++
    wordHex s.e ++ wordHex s.f ++ wordHex s.g ++ wordHex s.h

/-! ## Password subsystem (`channel.rs`) -/

/-- `CHANNEL_PASSWORD_LENGTH` from `channel.rs`. -/
def CHANNEL_PASSWORD_LENGTH : Nat := 12

/-- `hash_channel_password` from `channel.rs`: SHA-256 of the password bytes,
formatted `{:x}` (lowercase hex). -/
def hash_channel_password (password : String) : String :=
  String.mk (sha256Hex (strBytes password))

/-- `generate_channel_password` from `channel.rs`, with the `rand` sampler
modelled by its stream of alphanumeric samples: take the first 12. -/
def generate_channel_password (samples : List Char) : String :=
  String.mk (samples.take CHANNEL_PASSWORD_LENGTH)

/-- `verify_channel_password` from `channel.rs`.  The `subtle` constant-time
byte comparison is the `ctEq` model above applied to the UTF-8 bytes. -/
def verify_channel_password (stored_hash provided : Option String) : Bool :=
  match stored_hash with
  | some hash =>
    if hash.isEmpty then true
    else
      match provided with
      | none => false
      | some p => ctEq (strBytes hash) (strBytes (hash_channel_password p))
  | none => true

theorem char_toNat_ofNat {n : Nat} (h : n < 55296) : (Char.ofNat n).toNat = n := by
  have hv : n.isValidChar := Or.inl (by omega)
  rw [Char.ofNat, dif_pos hv]
  simp [Char.ofNatAux, Char.toNat, UInt32.toNat]

/-! ## Channel data model (`channel.rs`)

`ChannelFile.size` is a Rust `u64`, embedded as `Nat`; a value below
`2 ^ 64` is what the Rust type can hold. -/

/-- One attachment, as in `channel.rs` (binary content transported base64). -/
structure ChannelFile where
  id : String
  name : String
  mime_type : String
  size : Nat
  data_base64 : String
deriving Repr, DecidableEq

/-- The user-visible channel body. -/
structure ChannelData where
  text : String
  files : List ChannelFile
deriving Repr, DecidableEq

/-- The persisted record: optional password hash plus the channel body. -/
structure StoredChannel where
  password_hash : Option String
  data : ChannelData
deriving Repr, DecidableEq

/-- The error kinds of `error.rs` reachable from the pure channel core.  The
transport-layer kinds (`BindAddress`, `Redis`, `Io`, `Serialization`) carry
foreign payloads and are not produced by any function modelled here: the
store is modelled as available, and `serde_json::to_string` cannot fail on
these types. -/
inductive AppError where
  | ChannelNotFound
  | InvalidChannelPassword
  | PayloadTooLarge
  | InvalidFileData
deriving Repr, DecidableEq

/-- `MAX_CHANNEL_BYTES` from `config.rs`: 100 MiB. -/
def MAX_CHANNEL_BYTES : Nat := 100 * 1024 * 1024

/-- `DEFAULT_CHANNEL_TTL_SECONDS` from `config.rs`: 15 minutes. -/
def DEFAULT_CHANNEL_TTL_SECONDS : Nat := 15 * 60

/-- One more than `usize::MAX` on the 64-bit targets this backend builds for. -/
def USIZE_LIMIT : Nat := 18446744073709551616

/-- Rust `usize::checked_add`. -/
def checkedAdd (a b : Nat) : Option Nat :=
  if a + b < USIZE_LIMIT then some (a + b) else none

/-! ## Base64 (the base64 crate, `STANDARD` engine)

`STANDARD` uses the `A..Za..z0..9+/` alphabet, requires canonical `=`
padding, and rejects non-zero trailing bits in the final quantum. -/

/-- The value of one base64 alphabet symbol. -/
def b64Val (c : Char) : Option Nat :=
  if 65 ≤ c.toNat ∧ c.toNat ≤ 90 then some (c.toNat - 65)
  else if 97 ≤ c.toNat ∧ c.toNat ≤ 122 then some (c.toNat - 71)
  else if 48 ≤ c.toNat ∧ c.toNat ≤ 57 then some (c.toNat + 4)
  else if c.toNat = 43 then some 62
  else if c.toNat = 47 then some 63
  else none

/-- Strict base64 decoding of a character sequence to bytes. -/
def base64Decode : List Char → Option (List Nat)
  | [] => some []
  | [a, b, '=', '='] =>
    match b64Val a, b64Val b with
    | some va, some vb => if vb % 16 = 0 then some [va * 4 + vb / 16] else none
    | _, _ => none
  | [a, b, c, '='] =>
    match b64Val a, b64Val b, b64Val c with
    | some va, some vb, some vc =>
      if vc % 4 = 0 then some [va * 4 + vb / 16, vb % 16 * 16 + vc / 4] else none
    | _, _, _ => none
  | a :: b :: c :: d :: rest =>
    match b64Val a, b64Val b, b64Val c, b64Val d, base64Decode rest with
    | some va, some vb, some vc, some vd, some bytes =>
      some ((va * 4 + vb / 16) :: (vb % 16 * 16 + vc / 4) :: (vc % 4 * 64 + vd) :: bytes)
    | _, _, _, _, _ => none
  | _ => none

/-! ## Channel validator (`channel.rs::validate_channel_data`) -/

/-- The loop body of `validate_channel_data`: decode each file, accumulating
the decoded byte count with `checked_add`. -/
def sizeFold : List ChannelFile → Nat → Except AppError Nat
  | [], total => .ok total
  | file :: rest, total =>
    match base64Decode file.data_base64.data with
    | none => .error .InvalidFileData
    | some decoded =>
      match checkedAdd total decoded.length with
      | none => .error .PayloadTooLarge
      | some t => sizeFold rest t

/-- `validate_channel_data` from `channel.rs`: total is the byte length of
`text` plus each file's decoded byte length; the final bound check is
`total > MAX_CHANNEL_BYTES`. -/
def validate_channel_data (data : ChannelData) : Except AppError Unit :=
  match sizeFold data.files (strLen data.text) with
  | .error e => .error e
  | .ok total => if total > MAX_CHANNEL_BYTES then .error .PayloadTooLarge else .ok ()

/-- The decoded byte lists of all files, when every file decodes. -/
def decodeAll (files : List ChannelFile) : Option (List (List Nat)) :=
  files.mapM (fun f => base64Decode f.data_base64.data)

/-- Total byte count of a list of byte lists. -/
def totalLen (ds : List (List Nat)) : Nat := (ds.map List.length).sum

theorem sizeFold_spec : ∀ (files : List ChannelFile) (ds : List (List Nat)) (t0 : Nat),
    decodeAll files = some ds → t0 < USIZE_LIMIT →
    sizeFold files t0 =
      if t0 + totalLen ds < USIZE_LIMIT then .ok (t0 + totalLen ds)
      else .error .PayloadTooLarge := by
  intro files
  induction files with
  | nil =>
    intro ds t0 h ht0
    simp only [decodeAll, List.mapM_nil] at h
    simp only [Option.pure_def, Option.some.injEq] at h
    subst h
    simp only [sizeFold, totalLen, List.map_nil, List.sum_nil, Nat.add_zero]
    rw [if_pos ht0]
  | cons f fs ih =>
    intro ds t0 h ht0
    simp only [decodeAll, List.mapM_cons] at h
    cases hdec : base64Decode f.data_base64.data with
    | none => rw [hdec] at h; simp at h
    | some d =>
      rw [hdec] at h
      cases hrest : fs.mapM (fun f => base64Decode f.data_base64.data) with
      | none => rw [hrest] at h; simp at h
      | some ds2 =>
        rw [hrest] at h
        simp at h
        rw [← h]
        rcases Nat.lt_or_ge (t0 + d.length) USIZE_LIMIT with hlt | hge
        · simp only [sizeFold, hdec, checkedAdd, if_pos hlt]
          rw [ih ds2 (t0 + d.length) hrest hlt]
          simp only [totalLen, List.map_cons, List.sum_cons]
          have harith : t0 + d.length + (ds2.map List.length).sum =
              t0 + (d.length + (ds2.map List.length).sum) := by omega
          rw [harith]
        · simp only [sizeFold, hdec, checkedAdd,
            if_neg (by omega : ¬ t0 + d.length < USIZE_LIMIT)]
          simp only [totalLen, List.map_cons, List.sum_cons]
          rw [if_neg (by omega)]

theorem sizeFold_big (files : List ChannelFile) (ds : List (List Nat)) (t0 : Nat)
    (h : decodeAll files = some ds) (ht0 : USIZE_LIMIT ≤ t0) :
    sizeFold files t0 = if files.length = 0 then .ok t0 else .error .PayloadTooLarge := by
  cases files with
  | nil => simp [sizeFold]
  | cons f fs =>
    simp only [decodeAll, List.mapM_cons] at h
    cases hdec : base64Decode f.data_base64.data with
    | none => rw [hdec] at h; simp at h
    | some d =>
      simp only [sizeFold, hdec, checkedAdd]
      rw [if_neg (by omega)]
      simp

/-! ## JSON (serde_json)

`serialize_channel`/`deserialize_channel` delegate to `serde_json`, an
external collaborator.  Modelled from the spec: the codec writes an object
with a `password_hash` field and the flattened ChannelData fields, and the
reader accepts any JSON document of that shape (whitespace, any member
order, ignoring unknown members, defaulting missing ones).  Numbers are
modelled as the unsigned integers the schema uses (`size : u64`); a
document using fractional, signed or exponent number forms is treated as
unparseable, which serde maps to the same fallback because such values do
not deserialize into `u64` either.  `\uXXXX` escapes outside the Basic
Multilingual Plane's unpaired range (surrogates) are likewise treated as
unparseable. -/

/-- A JSON value; object member order and duplicates are kept. -/
inductive Json where
  | null
  | bool (b : Bool)
  | num (n : Nat)
  | str (s : List Char)
  | arr (elems : List Json)
  | obj (members : List (List Char × Json))
deriving Repr

/-- Skip JSON whitespace. -/
def skipWs : List Char → List Char
  | c :: rest =>
    if c = ' ' ∨ c = '\t' ∨ c = '\n' ∨ c = '\r' then skipWs rest else c :: rest
  | [] => []

/-- Single-character string escapes. -/
def escMap (c : Char) : Option Char :=
  if c = '"' ∨ c = '\\' ∨ c = '/' then some c
  else if c = 'b' then some (Char.ofNat 8)
  else if c = 'f' then some (Char.ofNat 12)
  else if c = 'n' then some (Char.ofNat 10)
  else if c = 'r' then some (Char.ofNat 13)
  else if c = 't' then some (Char.ofNat 9)
  else none

/-- Value of one hexadecimal digit (either case). -/
def hexVal (c : Char) : Option Nat :=
  if 48 ≤ c.toNat ∧ c.toNat ≤ 57 then some (c.toNat - 48)
  else if 97 ≤ c.toNat ∧ c.toNat ≤ 102 then some (c.toNat - 87)
  else if 65 ≤ c.toNat ∧ c.toNat ≤ 70 then some (c.toNat - 55)
  else none

/-- Decode what follows a backslash in a JSON string: a `\uXXXX` escape (for
a non-surrogate scalar) or a single-character escape. -/
def escDecode : List Char → Option (Char × List Char)
  | 'u' :: h1 :: h2 :: h3 :: h4 :: rest =>
    match hexVal h1, hexVal h2, hexVal h3, hexVal h4 with
    | some a, some b, some c, some d =>
      if a * 4096 + b * 256 + c * 16 + d < 55296 ∨ 57344 ≤ a * 4096 + b * 256 + c * 16 + d then
        some (Char.ofNat (a * 4096 + b * 256 + c * 16 + d), rest)
      else none
    | _, _, _, _ => none
  | e :: rest =>
    match escMap e with
    | some ch => some (ch, rest)
    | none => none
  | [] => none

/-- One step of JSON string reading: the closing quote (`(none, rest)`), an
escape, or a literal character (raw control characters are rejected). -/
def nextStrChar : List Char → Option (Option Char × List Char)
  | [] => none
  | c :: rest =>
    if c = '"' then some (none, rest)
    else if c = '\\' then
      match escDecode rest with
      | some (ch, r) => some (some ch, r)
      | none => none
    else if c.toNat < 32 then none
    else some (some c, rest)

/-- Fuel-driven string body reader (each step consumes at least one input
character, so fuel beyond the input length never runs out). -/
def parseStrFuel : Nat → List Char → Option (List Char × List Char)
  | 0, _ => none
  | fuel + 1, s =>
    match nextStrChar s with
    | none => none
    | some (none, rest) => some ([], rest)
    | some (some ch, rest) =>
      match parseStrFuel fuel rest with
      | some (out, r) => some (ch :: out, r)
      | none => none

/-- Parse the body of a JSON string after the opening quote, returning the
decoded characters and the input after the closing quote. -/
def parseStringBody (s : List Char) : Option (List Char × List Char) :=
  parseStrFuel (s.length + 1) s

/-- Greedily parse decimal digits onto an accumulator. -/
def parseDigitsAux : List Char → Nat → Nat × List Char
  | c :: rest, acc =>
    if 48 ≤ c.toNat ∧ c.toNat ≤ 57 then parseDigitsAux rest (acc * 10 + (c.toNat - 48))
    else (acc, c :: rest)
  | [], acc => (acc, [])

mutual

/-- Parse one JSON value (fuel-driven recursion; the top-level entry supplies
fuel exceeding any nesting the input can express). -/
def parseValue : Nat → List Char → Option (Json × List Char)
  | 0, _ => none
  | fuel + 1, s =>
    match skipWs s with
    | [] => none
    | c :: rest =>
      if c = 'n' then
        match rest with
        | 'u' :: 'l' :: 'l' :: r => some (.null, r)
        | _ => none
      else if c = 't' then
        match rest with
        | 'r' :: 'u' :: 'e' :: r => some (.bool true, r)
        | _ => none
      else if c = 'f' then
        match rest with
        | 'a' :: 'l' :: 's' :: 'e' :: r => some (.bool false, r)
        | _ => none
      else if c = '"' then
        match parseStringBody rest with
        | some (str, r) => some (.str str, r)
        | none => none
      else if c = '[' then
        match skipWs rest with
        | c2 :: r2 =>
          if c2 = ']' then some (.arr [], r2)
          else
            match parseElems fuel (c2 :: r2) with
            | some (vs, r) => some (.arr vs, r)
            | none => none
        | [] => none
      else if c = lbrace then
        match skipWs rest with
        | c2 :: r2 =>
          if c2 = rbrace then some (.obj [], r2)
          else
            match parseMembers fuel (c2 :: r2) with
            | some (ms, r) => some (.obj ms, r)
            | none => none
        | [] => none
      else if 48 ≤ c.toNat ∧ c.toNat ≤ 57 then
        some (.num (parseDigitsAux rest (c.toNat - 48)).1, (parseDigitsAux rest (c.toNat - 48)).2)
      else none

/-- Parse the elements of a non-empty array up to the closing bracket. -/
def parseElems : Nat → List Char → Option (List Json × List Char)
  | 0, _ => none
  | fuel + 1, s =>
    match parseValue fuel s with
    | none => none
    | some (v, r) =>
      match skipWs r with
      | c :: r2 =>
        if c = ',' then
          match parseElems fuel r2 with
          | some (vs, r3) => some (v :: vs, r3)
          | none => none
        else if c = ']' then some ([v], r2)
        else none
      | [] => none

/-- Parse the members of a non-empty object up to the closing brace. -/
def parseMembers : Nat → List Char → Option (List (List Char × Json) × List Char)
  | 0, _ => none
  | fuel + 1, s =>
    match skipWs s with
    | c :: rest =>
      if c = '"' then
        match parseStringBody rest with
        | some (key, r) =>
          match skipWs r with
          | c2 :: r2 =>
            if c2 = ':' then
              match parseValue fuel r2 with
              | some (v, r3) =>
                match skipWs r3 with
                | c3 :: r4 =>
                  if c3 = ',' then
                    match parseMembers fuel r4 with
                    | some (ms, r5) => some ((key, v) :: ms, r5)
                    | none => none
                  else if c3 = rbrace then some ([(key, v)], r4)
                  else none
                | [] => none
              | none => none
            else none
          | [] => none
        | none => none
      else none
    | [] => none

end

/-- Parse a whole JSON document: one value, then only whitespace. -/
def parseJson (s : List Char) : Option Json :=
  match parseValue (s.length + 1) s with
  | some (v, r) =>
    match skipWs r with
    | [] => some v
    | _ => none
  | none => none

/-- First member with the given key (serde's derived deserializers read
fields by name, in any order). -/
def jLookup (members : List (List Char × Json)) (key : List Char) : Option Json :=
  match members with
  | [] => none
  | (k, v) :: rest => if k = key then some v else jLookup rest key

/-- Decode one `ChannelFile`: all five fields are required (none carries a
serde default), `size` must fit in `u64`. -/
def decodeFile (j : Json) : Option ChannelFile :=
  match j with
  | .obj ms =>
    match jLookup ms ("id").data, jLookup ms ("name").data,
        jLookup ms ("mime_type").data, jLookup ms ("size").data,
        jLookup ms ("data_base64").data with
    | some (.str i), some (.str nm), some (.str mt), some (.num sz), some (.str db) =>
      if sz < USIZE_LIMIT then
        some ⟨String.mk i, String.mk nm, String.mk mt, sz, String.mk db⟩
      else none
    | _, _, _, _, _ => none
  | _ => none

/-- Decode a `StoredChannel`: `password_hash`, `text` and `files` all carry
`#[serde(default)]`, so a missing member yields the default; `null` for the
optional hash is `None`. -/
def decodeStored (j : Json) : Option StoredChannel :=
  match j with
  | .obj ms =>
    match
      (match jLookup ms ("password_hash").data with
       | none => some none
       | some .null => some none
       | some (.str s) => some (some (String.mk s))
       | some _ => none),
      (match jLookup ms ("text").data with
       | none => some ""
       | some (.str s) => some (String.mk s)
       | some _ => none),
      (match jLookup ms ("files").data with
       | none => some ([] : List ChannelFile)
       | some (.arr xs) => xs.mapM decodeFile
       | some _ => none) with
    | some ph, some text, some files => some ⟨ph, text, files⟩
    | _, _, _ => none
  | _ => none

/-- `serde_json::from_str::<StoredChannel>` — `none` models a parse or
shape error. -/
def parseStoredChannel (raw : String) : Option StoredChannel :=
  match parseJson raw.data with
  | some j => decodeStored j
  | none => none

/-- `deserialize_channel` from `channel.rs`: total, with the legacy fallback
treating the whole raw value as unprotected plain text. -/
def deserialize_channel (raw : String) : StoredChannel :=
  match parseStoredChannel raw with
  | some sc => sc
  | none => ⟨none, ⟨raw, []⟩⟩

/-! ### Printing (serde_json::to_string) -/

/-- serde_json's string escaping: quote, backslash, the five short control
escapes, `\u00XX` for other control characters, everything else literal. -/
def escapeChar (c : Char) : List Char :=
  if c = '"' then ['\\', '"']
  else if c = '\\' then ['\\', '\\']
  else if c = Char.ofNat 8 then ['\\', 'b']
  else if c = Char.ofNat 9 then ['\\', 't']
  else if c = Char.ofNat 10 then ['\\', 'n']
  else if c = Char.ofNat 12 then ['\\', 'f']
  else if c = Char.ofNat 13 then ['\\', 'r']
  else if c.toNat < 32 then
    ['\\', 'u', '0', '0', hexDigitChar (c.toNat / 16), hexDigitChar (c.toNat % 16)]
  else [c]

def escapeChars : List Char → List Char
  | [] => []
  | c :: cs => escapeChar c ++ escapeChars cs

/-- A printed JSON string literal. -/
def printString (s : List Char) : List Char := '"' :: (escapeChars s ++ ['"'])

/-- The printed form of one file object, fields in declaration order. -/
def printFile (f : ChannelFile) : List Char :=
  lbrace :: (printString ("id").data ++ ':' :: printString f.id.data ++
    ',' :: printString ("name").data ++ ':' :: printString f.name.data ++
    ',' :: printString ("mime_type").data ++ ':' :: printString f.mime_type.data ++
    ',' :: printString ("size").data ++ ':' :: natChars f.size ++
    ',' :: printString ("data_base64").data ++ ':' :: printString f.data_base64.data ++
    [rbrace])

/-- Comma-joined printed array elements. -/
def printFilesInner : List ChannelFile → List Char
  | [] => []
  | [f] => printFile f
  | f :: g :: rest => printFile f ++ ',' :: printFilesInner (g :: rest)

/-- The printed files array. -/
def printFiles (files : List ChannelFile) : List Char :=
  '[' :: (printFilesInner files ++ [']'])

/-- The printed optional password hash. -/
def printPh : Option String → List Char
  | none => ['n', 'u', 'l', 'l']
  | some s => printString s.data

/-- The printed `StoredChannel` object: `password_hash` first, then the
flattened `ChannelData` fields. -/
def printStored (sc : StoredChannel) : List Char :=
  lbrace :: (printString ("password_hash").data ++ ':' :: printPh sc.password_hash ++
    ',' :: printString ("text").data ++ ':' :: printString sc.data.text.data ++
    ',' :: printString ("files").data ++ ':' :: printFiles sc.data.files ++
    [rbrace])

/-- `serialize_channel` from `channel.rs` (`serde_json::to_string`; the
`Result` is always `Ok` for these types, so the model is total). -/
def serialize_channel (sc : StoredChannel) : String := String.mk (printStored sc)

/-! ### Reading back what the printer wrote -/

theorem skipWs_cons {c : Char} (rest : List Char)
    (h : c.toNat ≠ 32 ∧ c.toNat ≠ 9 ∧ c.toNat ≠ 10 ∧ c.toNat ≠ 13) :
    skipWs (c :: rest) = c :: rest := by
  rw [skipWs, if_neg]
  rintro (hc | hc | hc | hc) <;>
    · rw [hc] at h
      revert h
      decide

theorem hexVal_hexDigitChar {k : Nat} (h : k < 16) : hexVal (hexDigitChar k) = some k := by
  interval_cases k <;> rfl

theorem escDecode_u {c : Char} (rest : List Char) (h8 : c.toNat < 32) :
    escDecode ('u' :: '0' :: '0' :: hexDigitChar (c.toNat / 16) ::
      hexDigitChar (c.toNat % 16) :: rest) = some (c, rest) := by
  rw [escDecode]
  simp only [show hexVal ('0') = some 0 from rfl,
    hexVal_hexDigitChar (by omega : c.toNat / 16 < 16),
    hexVal_hexDigitChar (by omega : c.toNat % 16 < 16)]
  rw [if_pos (by omega :
    0 * 4096 + 0 * 256 + c.toNat / 16 * 16 + c.toNat % 16 < 55296 ∨
      57344 ≤ 0 * 4096 + 0 * 256 + c.toNat / 16 * 16 + c.toNat % 16)]
  rw [show 0 * 4096 + 0 * 256 + c.toNat / 16 * 16 + c.toNat % 16 = c.toNat from by omega,
    Char.ofNat_toNat]

theorem nextStrChar_escape (c : Char) (rest : List Char) :
    nextStrChar (escapeChar c ++ rest) = some (some c, rest) := by
  rw [escapeChar]
  by_cases h1 : c = '"'
  · rw [if_pos h1, h1]; rfl
  · rw [if_neg h1]
    by_cases h2 : c = '\\'
    · rw [if_pos h2, h2]; rfl
    · rw [if_neg h2]
      by_cases h3 : c = Char.ofNat 8
      · rw [if_pos h3, h3]; rfl
      · rw [if_neg h3]
        by_cases h4 : c = Char.ofNat 9
        · rw [if_pos h4, h4]; rfl
        · rw [if_neg h4]
          by_cases h5 : c = Char.ofNat 10
          · rw [if_pos h5, h5]; rfl
          · rw [if_neg h5]
            by_cases h6 : c = Char.ofNat 12
            · rw [if_pos h6, h6]; rfl
            · rw [if_neg h6]
              by_cases h7 : c = Char.ofNat 13
              · rw [if_pos h7, h7]; rfl
              · rw [if_neg h7]
                by_cases h8 : c.toNat < 32
                · rw [if_pos h8]
                  simp only [List.cons_append, List.nil_append]
                  rw [nextStrChar, if_neg (by decide), if_pos rfl, escDecode_u rest h8]
                · rw [if_neg h8]
                  simp only [List.cons_append, List.nil_append]
                  rw [nextStrChar, if_neg h1, if_neg h2, if_neg h8]

theorem nextStrChar_quote (rest : List Char) :
    nextStrChar ('"' :: rest) = some (none, rest) := rfl

theorem parseStrFuel_escape :
    ∀ (s : List Char) (fuel : Nat) (rest : List Char), s.length + 1 ≤ fuel →
      parseStrFuel fuel (escapeChars s ++ ('"' :: rest)) = some (s, rest)
  | [], fuel, rest => by
    intro hf
    cases fuel with
    | zero => omega
    | succ f =>
      simp only [escapeChars, List.nil_append]
      rw [parseStrFuel, nextStrChar_quote]
  | c :: cs, fuel, rest => by
    intro hf
    cases fuel with
    | zero => omega
    | succ f =>
      have ih := parseStrFuel_escape cs f rest (by
        simp only [List.length_cons] at hf
        omega)
      simp only [escapeChars, List.append_assoc]
      rw [parseStrFuel, nextStrChar_escape]
      simp only [ih]

theorem escapeChars_length_ge (s : List Char) : s.length ≤ (escapeChars s).length := by
  induction s with
  | nil => simp [escapeChars]
  | cons c cs ih =>
    simp only [escapeChars, List.length_append, List.length_cons]
    have hc : 1 ≤ (escapeChar c).length := by
      rw [escapeChar]
      repeat' split
      all_goals simp
    omega

theorem parseStringBody_escape (s rest : List Char) :
    parseStringBody (escapeChars s ++ ('"' :: rest)) = some (s, rest) := by
  rw [parseStringBody]
  apply parseStrFuel_escape
  have h1 := escapeChars_length_ge s
  simp only [List.length_append, List.length_cons]
  omega

/-- The input does not continue with a decimal digit (so a greedy number
parse stops exactly here). -/
def headNotDigit : List Char → Prop
  | [] => True
  | c :: _ => ¬(48 ≤ c.toNat ∧ c.toNat ≤ 57)

theorem digitChar_toNat {k : Nat} (h : k < 10) : (digitChar k).toNat = 48 + k := by
  rw [digitChar, char_toNat_ofNat (by omega)]

theorem natChars_digits (n : Nat) : ∀ c ∈ natChars n, 48 ≤ c.toNat ∧ c.toNat ≤ 57 := by
  induction n using Nat.strong_induction_on with
  | _ n ih =>
    rw [natChars]
    split
    case isTrue h =>
      intro c hc
      simp only [List.mem_singleton] at hc
      subst hc
      rw [digitChar_toNat h]
      omega
    case isFalse h =>
      intro c hc
      rw [List.mem_append] at hc
      rcases hc with hc | hc
      · exact ih (n / 10) (by omega) c hc
      · simp only [List.mem_singleton] at hc
        subst hc
        rw [digitChar_toNat (by omega)]
        omega

theorem natChars_foldl (n : Nat) : ∀ acc : Nat,
    (natChars n).foldl (fun a c => a * 10 + (c.toNat - 48)) acc =
      acc * 10 ^ (natChars n).length + n := by
  induction n using Nat.strong_induction_on with
  | _ n ih =>
    intro acc
    rw [natChars]
    split
    case isTrue h =>
      simp only [List.foldl_cons, List.foldl_nil, List.length_singleton]
      rw [digitChar_toNat h]
      omega
    case isFalse h =>
      rw [List.foldl_append, List.length_append, ih (n / 10) (by omega) acc]
      simp only [List.foldl_cons, List.foldl_nil, List.length_singleton]
      rw [digitChar_toNat (by omega), pow_succ,
        show acc * (10 ^ (natChars (n / 10)).length * 10) =
          acc * 10 ^ (natChars (n / 10)).length * 10 from by ring]
      omega

theorem parseDigitsAux_spec :
    ∀ (ds : List Char) (acc : Nat) (rest : List Char),
      (∀ c ∈ ds, 48 ≤ c.toNat ∧ c.toNat ≤ 57) → headNotDigit rest →
      parseDigitsAux (ds ++ rest) acc =
        (ds.foldl (fun a c => a * 10 + (c.toNat - 48)) acc, rest)
  | [], acc, rest => by
    intro _ hrest
    cases rest with
    | nil => rfl
    | cons c r =>
      simp only [List.nil_append, List.foldl_nil]
      rw [parseDigitsAux, if_neg hrest]
  | d :: ds, acc, rest => by
    intro hds hrest
    simp only [List.cons_append, List.foldl_cons]
    rw [parseDigitsAux, if_pos (hds d (List.mem_cons_self d ds))]
    exact parseDigitsAux_spec ds _ rest (fun c hc => hds c (List.mem_cons_of_mem d hc)) hrest

theorem parseValue_num (fuel n : Nat) (rest : List Char) (hrest : headNotDigit rest) :
    parseValue (fuel + 1) (natChars n ++ rest) = some (.num n, rest) := by
  cases hnc : natChars n with
  | nil => exact absurd hnc (natChars_ne_nil n)
  | cons c cs =>
    have hdig : 48 ≤ c.toNat ∧ c.toNat ≤ 57 :=
      natChars_digits n c (hnc ▸ List.mem_cons_self c cs)
    have hdigs : ∀ x ∈ cs, 48 ≤ x.toNat ∧ x.toNat ≤ 57 := fun x hx =>
      natChars_digits n x (hnc ▸ List.mem_cons_of_mem c hx)
    have hn : ¬(c = 'n') := by intro he; rw [he] at hdig; revert hdig; decide
    have ht : ¬(c = 't') := by intro he; rw [he] at hdig; revert hdig; decide
    have hf : ¬(c = 'f') := by intro he; rw [he] at hdig; revert hdig; decide
    have hq : ¬(c = '"') := by intro he; rw [he] at hdig; revert hdig; decide
    have hlb : ¬(c = '[') := by intro he; rw [he] at hdig; revert hdig; decide
    have hob : ¬(c = lbrace) := by intro he; rw [he] at hdig; revert hdig; decide
    have hval : cs.foldl (fun a c => a * 10 + (c.toNat - 48)) (c.toNat - 48) = n := by
      have h0 := natChars_foldl n 0
      rw [hnc] at h0
      simp only [List.foldl_cons, Nat.zero_mul, Nat.zero_add] at h0
      exact h0
    simp only [hnc, List.cons_append]
    rw [parseValue, skipWs_cons _ (by omega)]
    simp only [if_neg hn, if_neg ht, if_neg hf, if_neg hq, if_neg hlb, if_neg hob,
      if_pos hdig, parseDigitsAux_spec cs (c.toNat - 48) rest hdigs hrest, hval]

theorem parseValue_str (fuel : Nat) (s rest : List Char) :
    parseValue (fuel + 1) ('"' :: (escapeChars s ++ ('"' :: rest))) = some (.str s, rest) := by
  rw [parseValue, skipWs_cons _ (by decide)]
  simp only [if_neg (by decide : ¬(('"' : Char) = 'n')),
    if_neg (by decide : ¬(('"' : Char) = 't')),
    if_neg (by decide : ¬(('"' : Char) = 'f')),
    if_pos (rfl : ('"' : Char) = '"'), if_true,
    parseStringBody_escape]

theorem parseValue_null (fuel : Nat) (rest : List Char) :
    parseValue (fuel + 1) ('n' :: 'u' :: 'l' :: 'l' :: rest) = some (.null, rest) := rfl

/-- The JSON value serde writes for one `ChannelFile`. -/
def fileJson (f : ChannelFile) : Json :=
  .obj [(("id").data, .str f.id.data), (("name").data, .str f.name.data),
    (("mime_type").data, .str f.mime_type.data), (("size").data, .num f.size),
    (("data_base64").data, .str f.data_base64.data)]

/-- The JSON value serde writes for the optional password hash. -/
def phJson : Option String → Json
  | none => .null
  | some s => .str s.data

/-- The JSON value serde writes for a whole `StoredChannel`. -/
def storedJson (sc : StoredChannel) : Json :=
  .obj [(("password_hash").data, phJson sc.password_hash),
    (("text").data, .str sc.data.text.data),
    (("files").data, .arr (sc.data.files.map fileJson))]

theorem parseMembers_cons (g : Nat) (key s : List Char) (v : Json) (r : List Char)
    (hval : parseValue g s = some (v, r)) :
    parseMembers (g + 1) ('"' :: (escapeChars key ++ ('"' :: (':' :: s)))) =
      match skipWs r with
      | c3 :: r4 =>
        if c3 = ',' then
          match parseMembers g r4 with
          | some (ms, r5) => some ((key, v) :: ms, r5)
          | none => none
        else if c3 = rbrace then some ([(key, v)], r4)
        else none
      | [] => none := by
  rw [parseMembers, skipWs_cons _ (by decide)]
  simp only [if_pos (rfl : ('"' : Char) = '"'), if_true, parseStringBody_escape,
    @skipWs_cons ':' s (by decide), if_pos (rfl : (':' : Char) = ':'), hval]

theorem parseMembers_cons_comma (g : Nat) (key s : List Char) (v : Json)
    (rest : List Char) (ms : List (List Char × Json)) (r : List Char)
    (hval : parseValue g s = some (v, ',' :: rest))
    (hrest : parseMembers g rest = some (ms, r)) :
    parseMembers (g + 1) ('"' :: (escapeChars key ++ ('"' :: (':' :: s)))) =
      some ((key, v) :: ms, r) := by
  rw [parseMembers_cons g key s v _ hval]
  simp only [@skipWs_cons ',' rest (by decide), if_pos (rfl : (',' : Char) = ','),
    if_true, hrest]

theorem parseMembers_cons_last (g : Nat) (key s : List Char) (v : Json)
    (rest : List Char) (hval : parseValue g s = some (v, rbrace :: rest)) :
    parseMembers (g + 1) ('"' :: (escapeChars key ++ ('"' :: (':' :: s)))) =
      some ([(key, v)], rest) := by
  rw [parseMembers_cons g key s v _ hval]
  simp only [@skipWs_cons rbrace rest (by decide), if_neg (by decide : ¬(rbrace = ',')),
    if_pos (rfl : rbrace = rbrace), if_true]

theorem parseElems_cons (g : Nat) (s : List Char) (v : Json) (r : List Char)
    (hval : parseValue g s = some (v, r)) :
    parseElems (g + 1) s =
      match skipWs r with
      | c :: r2 =>
        if c = ',' then
          match parseElems g r2 with
          | some (vs, r3) => some (v :: vs, r3)
          | none => none
        else if c = ']' then some ([v], r2)
        else none
      | [] => none := by
  rw [parseElems]
  simp only [hval]

theorem parseElems_cons_comma (g : Nat) (s : List Char) (v : Json) (rest : List Char)
    (vs : List Json) (r : List Char)
    (hval : parseValue g s = some (v, ',' :: rest))
    (hrest : parseElems g rest = some (vs, r)) :
    parseElems (g + 1) s = some (v :: vs, r) := by
  rw [parseElems_cons g s v _ hval]
  simp only [@skipWs_cons ',' rest (by decide), if_pos (rfl : (',' : Char) = ','),
    if_true, hrest]

theorem parseElems_cons_last (g : Nat) (s : List Char) (v : Json) (rest : List Char)
    (hval : parseValue g s = some (v, ']' :: rest)) :
    parseElems (g + 1) s = some ([v], rest) := by
  rw [parseElems_cons g s v _ hval]
  simp only [@skipWs_cons ']' rest (by decide), if_neg (by decide : ¬((']' : Char) = ',')),
    if_pos (rfl : (']' : Char) = ']'), if_true]

theorem parseValue_obj (g : Nat) (c2 : Char) (r2 : List Char)
    (ms : List (List Char × Json)) (r : List Char)
    (hws : c2.toNat ≠ 32 ∧ c2.toNat ≠ 9 ∧ c2.toNat ≠ 10 ∧ c2.toNat ≠ 13)
    (hne : ¬(c2 = rbrace)) (hmem : parseMembers g (c2 :: r2) = some (ms, r)) :
    parseValue (g + 1) (lbrace :: c2 :: r2) = some (.obj ms, r) := by
  rw [parseValue, skipWs_cons _ (by decide)]
  simp only [if_neg (by decide : ¬(lbrace = 'n')), if_neg (by decide : ¬(lbrace = 't')),
    if_neg (by decide : ¬(lbrace = 'f')), if_neg (by decide : ¬(lbrace = '"')),
    if_neg (by decide : ¬(lbrace = '[')), if_pos (rfl : lbrace = lbrace), if_true,
    @skipWs_cons c2 r2 hws, if_neg hne, hmem]

theorem parseValue_arr (g : Nat) (c2 : Char) (r2 : List Char)
    (vs : List Json) (r : List Char)
    (hws : c2.toNat ≠ 32 ∧ c2.toNat ≠ 9 ∧ c2.toNat ≠ 10 ∧ c2.toNat ≠ 13)
    (hne : ¬(c2 = ']')) (helems : parseElems g (c2 :: r2) = some (vs, r)) :
    parseValue (g + 1) ('[' :: c2 :: r2) = some (.arr vs, r) := by
  rw [parseValue, skipWs_cons _ (by decide)]
  simp only [if_neg (by decide : ¬(('[' : Char) = 'n')),
    if_neg (by decide : ¬(('[' : Char) = 't')), if_neg (by decide : ¬(('[' : Char) = 'f')),
    if_neg (by decide : ¬(('[' : Char) = '"')), if_pos (rfl : ('[' : Char) = '['), if_true,
    @skipWs_cons c2 r2 hws, if_neg hne, helems]

theorem parseValue_arr_empty (g : Nat) (rest : List Char) :
    parseValue (g + 1) ('[' :: ']' :: rest) = some (.arr [], rest) := rfl

theorem parseValue_printFile (g : Nat) (f : ChannelFile) (rest : List Char) :
    parseValue (g + 7) (printFile f ++ rest) = some (fileJson f, rest) := by
  simp only [printFile, printString, fileJson, List.cons_append, List.append_assoc,
    List.singleton_append]
  refine parseValue_obj (g + 6) '"' _ _ _ (by decide) (by decide) ?_
  refine parseMembers_cons_comma (g + 5) _ _ _ _ _ _ (parseValue_str (g + 4) _ _) ?_
  refine parseMembers_cons_comma (g + 4) _ _ _ _ _ _ (parseValue_str (g + 3) _ _) ?_
  refine parseMembers_cons_comma (g + 3) _ _ _ _ _ _ (parseValue_str (g + 2) _ _) ?_
  refine parseMembers_cons_comma (g + 2) _ _ _ _ _ _
    (parseValue_num (g + 1) f.size _
      (by exact (by decide : ¬(48 ≤ (',' : Char).toNat ∧ (',' : Char).toNat ≤ 57)))) ?_
  exact parseMembers_cons_last (g + 1) _ _ _ _ (parseValue_str g _ _)

theorem parseElems_printFilesInner :
    ∀ (files : List ChannelFile) (g : Nat) (rest : List Char), files ≠ [] →
      parseElems (g + files.length + 7) (printFilesInner files ++ (']' :: rest)) =
        some (files.map fileJson, rest)
  | [], _, _, h => absurd rfl h
  | [f], g, rest, _ => by
    simp only [printFilesInner, List.length_singleton, List.map_singleton]
    exact parseElems_cons_last (g + 7) _ _ _ (parseValue_printFile g f _)
  | f :: f2 :: more, g, rest, _ => by
    have ih := parseElems_printFilesInner (f2 :: more) g rest (by simp)
    simp only [List.length_cons] at ih
    simp only [printFilesInner, List.length_cons, List.map_cons, List.cons_append,
      List.append_assoc]
    rw [show g + (more.length + 1 + 1) + 7 = (g + (more.length + 1) + 7) + 1 from by omega]
    refine parseElems_cons_comma (g + (more.length + 1) + 7) _ _ _ _ _ ?_ ih
    rw [show g + (more.length + 1) + 7 = (g + more.length + 1) + 7 from by omega]
    exact parseValue_printFile (g + more.length + 1) f _

theorem parseValue_printFiles (g : Nat) (files : List ChannelFile) (rest : List Char) :
    parseValue (g + files.length + 8) (printFiles files ++ rest) =
      some (.arr (files.map fileJson), rest) := by
  cases files with
  | nil =>
    simp only [printFiles, printFilesInner, List.nil_append, List.map_nil, List.length_nil,
      List.cons_append, List.singleton_append, Nat.add_zero]
    exact parseValue_arr_empty (g + 7) rest
  | cons f fs =>
    have h := parseElems_printFilesInner (f :: fs) g rest (by simp)
    simp only [List.length_cons, List.map_cons] at h ⊢
    cases fs with
    | nil =>
      simp only [printFiles, printFilesInner, printFile, printString, List.cons_append,
        List.append_assoc, List.singleton_append, List.map_cons, List.map_nil,
        List.length_nil] at h ⊢
      exact parseValue_arr _ lbrace _ _ _ (by decide) (by decide) h
    | cons f2 more =>
      simp only [printFiles, printFilesInner, printFile, printString, List.cons_append,
        List.append_assoc, List.singleton_append, List.map_cons, List.length_cons] at h ⊢
      exact parseValue_arr _ lbrace _ _ _ (by decide) (by decide) h

theorem parseValue_printPh (fuel : Nat) (ph : Option String) (rest : List Char) :
    parseValue (fuel + 1) (printPh ph ++ rest) = some (phJson ph, rest) := by
  cases ph with
  | none =>
    simp only [printPh, phJson, List.cons_append, List.nil_append]
    exact parseValue_null fuel rest
  | some s =>
    simp only [printPh, phJson, printString, List.cons_append, List.append_assoc,
      List.singleton_append]
    exact parseValue_str fuel _ _

theorem parseValue_printStored (g : Nat) (sc : StoredChannel) (rest : List Char) :
    parseValue (g + sc.data.files.length + 12) (printStored sc ++ rest) =
      some (storedJson sc, rest) := by
  simp only [printStored, printString, storedJson, List.cons_append, List.append_assoc,
    List.singleton_append]
  refine parseValue_obj (g + sc.data.files.length + 11) '"' _ _ _ (by decide) (by decide) ?_
  refine parseMembers_cons_comma (g + sc.data.files.length + 10) _ _ _ _ _ _
    (parseValue_printPh _ sc.password_hash _) ?_
  refine parseMembers_cons_comma (g + sc.data.files.length + 9) _ _ _ _ _ _
    (parseValue_str (g + sc.data.files.length + 8) _ _) ?_
  exact parseMembers_cons_last (g + sc.data.files.length + 8) _ _ _ _
    (parseValue_printFiles g sc.data.files _)

theorem printFilesInner_length_ge :
    ∀ files : List ChannelFile, files.length ≤ (printFilesInner files).length
  | [] => by simp [printFilesInner]
  | [f] => by
    simp [printFilesInner, printFile]
  | f :: f2 :: more => by
    have ih := printFilesInner_length_ge (f2 :: more)
    simp only [List.length_cons] at ih
    simp [printFilesInner, printFile]
    omega

theorem printString_length_ge (s : List Char) : 2 ≤ (printString s).length := by
  simp only [printString, List.length_cons, List.length_append, List.length_singleton]
  omega

theorem printStored_length_ge (sc : StoredChannel) :
    sc.data.files.length + 12 ≤ (printStored sc).length := by
  have h1 := printFilesInner_length_ge sc.data.files
  have h2 := printString_length_ge (("password_hash").data)
  have h3 := printString_length_ge (("text").data)
  have h4 := printString_length_ge (("files").data)
  simp only [printStored, printFiles, List.length_cons, List.length_append,
    List.length_singleton, List.length_nil] at h2 h3 h4 ⊢
  omega

theorem parseJson_printStored (sc : StoredChannel) :
    parseJson (printStored sc) = some (storedJson sc) := by
  obtain ⟨k, hk⟩ : ∃ k, (printStored sc).length + 1 = k + sc.data.files.length + 12 :=
    ⟨(printStored sc).length + 1 - (sc.data.files.length + 12), by
      have := printStored_length_ge sc
      omega⟩
  rw [parseJson, hk]
  have h := parseValue_printStored k sc []
  rw [List.append_nil] at h
  rw [h]
  rfl

theorem string_mk_data (s : String) : String.mk s.data = s := by
  rcases s with ⟨l⟩
  rfl

theorem decodeFile_fileJson (f : ChannelFile) (h : f.size < USIZE_LIMIT) :
    decodeFile (fileJson f) = some f := by
  rcases f with ⟨i, nm, mt, sz, db⟩
  simp only at h
  show (if sz < USIZE_LIMIT then
      some (⟨String.mk i.data, String.mk nm.data, String.mk mt.data, sz, String.mk db.data⟩ :
        ChannelFile)
    else none) = some ⟨i, nm, mt, sz, db⟩
  rw [if_pos h]

theorem mapM_decodeFile :
    ∀ files : List ChannelFile, (∀ f ∈ files, f.size < USIZE_LIMIT) →
      (files.map fileJson).mapM decodeFile = some files
  | [], _ => rfl
  | f :: fs, h => by
    have hf := decodeFile_fileJson f (h f (List.mem_cons_self f fs))
    have hfs := mapM_decodeFile fs (fun x hx => h x (List.mem_cons_of_mem f hx))
    simp only [List.map_cons, List.mapM_cons, hf, hfs]
    rfl

/-- All file sizes fit in `u64` — automatic for any record that originated
from the Rust types. -/
abbrev SizesValid (sc : StoredChannel) : Prop :=
  ∀ f ∈ sc.data.files, f.size < USIZE_LIMIT

theorem decodeStored_storedJson (sc : StoredChannel) (h : SizesValid sc) :
    decodeStored (storedJson sc) = some sc := by
  rcases sc with ⟨ph, text, files⟩
  have hm := mapM_decodeFile files (fun f hf => h f hf)
  rw [storedJson, decodeStored]
  simp only [jLookup,
    if_pos (rfl : (("password_hash").data : List Char) = ("password_hash").data),
    if_neg (by decide : ¬((("password_hash").data : List Char) = ("text").data)),
    if_neg (by decide : ¬((("password_hash").data : List Char) = ("files").data)),
    if_pos (rfl : (("text").data : List Char) = ("text").data),
    if_neg (by decide : ¬((("text").data : List Char) = ("files").data)),
    if_pos (rfl : (("files").data : List Char) = ("files").data), if_true]
  cases ph with
  | none =>
    simp only [phJson, hm, string_mk_data]
  | some s =>
    simp only [phJson, hm, string_mk_data]

theorem deserialize_serialize (sc : StoredChannel) (h : SizesValid sc) :
    deserialize_channel (serialize_channel sc) = sc := by
  rw [deserialize_channel, parseStoredChannel, serialize_channel,
    show (String.mk (printStored sc)).data = printStored sc from rfl,
    parseJson_printStored sc]
  simp only [decodeStored_storedJson sc h]

/-! ## Channel identifier (`channel.rs::generate_channel_id`, uuid crate)

`Uuid::new_v4()` fills 16 random bytes, forces the version nibble of byte 6
to 4 and the variant bits of byte 8 to `10`, and `simple()` formats the 16
bytes as 32 lowercase hex digits.  The random source is modelled by the
byte list argument. -/

/-- Two lowercase hex digits of one byte. -/
def byteHexChars (b : Nat) : List Char := [hexDigitChar (b / 16), hexDigitChar (b % 16)]

/-- Lowercase hex of a byte string. -/
def bytesHex (bs : List Nat) : List Char := (bs.map byteHexChars).flatten

/-- The 16 UUID-v4 bytes obtained from 16 random bytes. -/
def uuid_v4_bytes (r : List Nat) : List Nat :=
  (r.set 6 (r.getD 6 0 % 16 + 64)).set 8 (r.getD 8 0 % 64 + 128)

/-- `generate_channel_id` from `channel.rs`: the first 8 characters of the
UUID's simple (32 lowercase hex digit) form. -/
def generate_channel_id (r : List Nat) : String :=
  String.mk ((bytesHex (uuid_v4_bytes r)).take 8)

/-! ## Handlers (`app/handlers.rs`)

Each handler is a pure function of the request data, the values generated
by the random source, and the store's replies; its effects on the store
(the value written by `SET`, whether `EXPIRE` was issued) are returned as
data.  Store transport errors other than the TTL read (whose error case the
fetch handler inspects with `unwrap_or`) abort the handler in the code and
are not modelled. -/

structure CreateChannelRequest where
  text : Option String
  files : List ChannelFile
deriving Repr, DecidableEq

structure CreateChannelResponse where
  id : String
  password : String
  ttl_seconds : Nat
deriving Repr, DecidableEq

structure ChannelPayloadResponse where
  id : String
  text : String
  files : List ChannelFile
  ttl_seconds : Int
deriving Repr, DecidableEq

structure UpdateChannelRequest where
  text : String
  files : List ChannelFile
deriving Repr, DecidableEq

/-- `create_channel` from `app/handlers.rs`.  `id` and `password` stand for
the freshly generated identifier and password; the second component is the
value written to the store under the channel key (with a fresh TTL), when
the write happens. -/
def create_channel (channel_ttl : Nat) (id password : String)
    (payload : CreateChannelRequest) :
    Except AppError CreateChannelResponse × Option String :=
  let data : ChannelData := ⟨payload.text.getD "", payload.files⟩
  match validate_channel_data data with
  | .error e => (.error e, none)
  | .ok _ =>
    let password_hash := hash_channel_password password
    let record : StoredChannel := ⟨some password_hash, data⟩
    (.ok ⟨id, password, channel_ttl⟩, some (serialize_channel record))

/-- `fetch_channel` from `app/handlers.rs`.  `raw` is the store's `GET`
reply, `ttlReply` the store's `TTL` reply (`Except.error` when the store
cannot report it).  The boolean records whether the TTL refresh (`EXPIRE`)
was issued. -/
def fetch_channel (channel_ttl : Nat) (id : String) (provided_password : Option String)
    (raw : Option String) (ttlReply : Except Unit Int) :
    Except AppError ChannelPayloadResponse × Bool :=
  match raw with
  | none => (.error .ChannelNotFound, false)
  | some raw =>
    let record := deserialize_channel raw
    if verify_channel_password record.password_hash provided_password then
      let ttl_seconds : Int :=
        match ttlReply with
        | .ok v => v
        | .error _ => (channel_ttl : Int)
      (.ok ⟨id, record.data.text, record.data.files, ttl_seconds⟩, true)
    else (.error .InvalidChannelPassword, false)

/-- `update_channel` from `app/handlers.rs`.  The second component is the
value written back (with a fresh TTL), when the write happens. -/
def update_channel (channel_ttl : Nat) (id : String) (provided_password : Option String)
    (payload : UpdateChannelRequest) (raw : Option String) :
    Except AppError Unit × Option String :=
  match raw with
  | none => (.error .ChannelNotFound, none)
  | some raw =>
    let record := deserialize_channel raw
    if verify_channel_password record.password_hash provided_password then
      let data : ChannelData := ⟨payload.text, payload.files⟩
      match validate_channel_data data with
      | .error e => (.error e, none)
      | .ok _ => (.ok (), some (serialize_channel { record with data := data }))
    else (.error .InvalidChannelPassword, none)

/-- `deserialize_channel` of the legacy `lib.rs` variant (no password
field): total, with the same plain-text fallback. -/
def decodeChannelData (j : Json) : Option ChannelData :=
  match j with
  | .obj ms =>
    match
      (match jLookup ms ("text").data with
       | none => some ""
       | some (.str s) => some (String.mk s)
       | some _ => none),
      (match jLookup ms ("files").data with
       | none => some ([] : List ChannelFile)
       | some (.arr xs) => xs.mapM decodeFile
       | some _ => none) with
    | some text, some files => some ⟨text, files⟩
    | _, _ => none
  | _ => none

def deserialize_channel_data (raw : String) : ChannelData :=
  match parseJson raw.data with
  | some j =>
    match decodeChannelData j with
    | some d => d
    | none => ⟨raw, []⟩
  | none => ⟨raw, []⟩

/-- `fetch_channel` of the legacy `lib.rs` variant: no password gate, and a
negative reported TTL is clamped to the configured default. -/
def fetch_channel_legacy (channel_ttl : Nat) (id : String) (raw : Option String)
    (ttlReply : Except Unit Int) : Except AppError ChannelPayloadResponse × Bool :=
  match raw with
  | none => (.error .ChannelNotFound, false)
  | some raw =>
    let data := deserialize_channel_data raw
    let ttl0 : Int :=
      match ttlReply with
      | .ok v => v
      | .error _ => (channel_ttl : Int)
    let ttl_seconds : Int := if ttl0 < 0 then (channel_ttl : Int) else ttl0
    (.ok ⟨id, data.text, data.files, ttl_seconds⟩, true)

/-! ### Support lemmas for the claims -/

theorem sizeFold_append : ∀ (xs ys : List ChannelFile) (t0 : Nat),
    sizeFold (xs ++ ys) t0 =
      match sizeFold xs t0 with
      | .ok t => sizeFold ys t
      | .error e => .error e
  | [], ys, t0 => rfl
  | f :: fs, ys, t0 => by
    cases hdec : base64Decode f.data_base64.data with
    | none => simp only [List.cons_append, sizeFold, hdec]
    | some d =>
      cases hadd : checkedAdd t0 d.length with
      | none => simp only [List.cons_append, sizeFold, hdec, hadd]
      | some t =>
        simp only [List.cons_append, sizeFold, hdec, hadd]
        exact sizeFold_append fs ys t

theorem utf8Bytes_replicate (n : Nat) :
    utf8Bytes (List.replicate n ('a')) = List.replicate n 97 := by
  induction n with
  | zero => rfl
  | succ k ih =>
    simp only [List.replicate_succ, utf8Bytes, ih,
      show utf8EncodeChar ('a') = [97] from rfl, List.cons_append, List.nil_append]

theorem wordHex_length (w : Nat) : (wordHex w).length = 8 := by
  simp [wordHex]

theorem hash_channel_password_length (p : String) :
    (hash_channel_password p).length = 64 := by
  show (sha256Hex (strBytes p)).length = 64
  rw [sha256Hex]
  simp only [List.length_append, wordHex_length]

theorem hash_channel_password_ne_empty (p : String) : hash_channel_password p ≠ "" := by
  intro h
  have hl := hash_channel_password_length p
  rw [h] at hl
  exact absurd hl (by decide)

theorem bytesHex_length : ∀ bs : List Nat, (bytesHex bs).length = 2 * bs.length
  | [] => rfl
  | b :: rest => by
    simp only [bytesHex, List.map_cons, List.flatten_cons, List.length_append,
      List.length_cons]
    have ih := bytesHex_length rest
    simp only [bytesHex] at ih
    simp only [byteHexChars, List.length_cons, List.length_nil, ih]
    omega

theorem bytesHex_append (a b : List Nat) :
    bytesHex (a ++ b) = bytesHex a ++ bytesHex b := by
  simp [bytesHex]

theorem hexDigitChar_mem_charset {k : Nat} (h : k < 16) :
    hexDigitChar k ∈ (("0123456789abcdef").data) := by
  interval_cases k <;> decide

theorem take_set_of_le {α : Type} (l : List α) (i n : Nat) (v : α) (h : n ≤ i) :
    (l.set i v).take n = l.take n := by
  rw [List.set_take]
  exact List.set_eq_of_length_le (by
    have := List.length_take_le n l
    omega)

/-! ## The claims -/

/-- C1: `verify_channel_password` grants access whenever the stored hash is
absent or empty; with a non-empty stored hash it rejects a missing provided
password, and accepts a provided password exactly when its SHA-256 hex
digest equals the stored hash. -/
theorem claim_C1 (stored provided : Option String) :
    ((stored = none ∨ stored = some "") →
      verify_channel_password stored provided = true) ∧
    (∀ h, stored = some h → h ≠ "" → provided = none →
      verify_channel_password stored provided = false) ∧
    (∀ h p, stored = some h → h ≠ "" → provided = some p →
      (verify_channel_password stored provided = true ↔ hash_channel_password p = h)) := by
  refine ⟨?_, ?_, ?_⟩
  · rintro (rfl | rfl) <;> rfl
  · rintro h rfl hne rfl
    show verify_channel_password (some h) none = false
    rw [verify_channel_password,
      if_neg (fun he => hne ((String.isEmpty_iff h).mp he))]
  · rintro h p rfl hne rfl
    show verify_channel_password (some h) (some p) = true ↔ hash_channel_password p = h
    rw [verify_channel_password,
      if_neg (fun he => hne ((String.isEmpty_iff h).mp he))]
    rw [ctEq_iff_eq]
    constructor
    · intro he
      exact (strBytes_inj he).symm
    · intro he
      rw [he]

theorem claim_C1_witness : verify_channel_password (some ("x")) none = false :=
  (claim_C1 (some ("x")) none).2.1 ("x") rfl (by decide) rfl

/-- C3: for channel data whose files all decode, validation accepts a total
of exactly `MAX_CHANNEL_BYTES` and rejects any strictly larger total with
`PayloadTooLarge`; an overflowing running sum is a total above the maximum
and is likewise reported as `PayloadTooLarge`, never wrapped. -/
theorem claim_C3 (data : ChannelData) (ds : List (List Nat))
    (h : decodeAll data.files = some ds) :
    (strLen data.text + totalLen ds = MAX_CHANNEL_BYTES →
      validate_channel_data data = .ok ()) ∧
    (strLen data.text + totalLen ds > MAX_CHANNEL_BYTES →
      validate_channel_data data = .error .PayloadTooLarge) := by
  have hmaxlt : MAX_CHANNEL_BYTES < USIZE_LIMIT := by decide
  rcases Nat.lt_or_ge (strLen data.text) USIZE_LIMIT with hT | hT
  · have hfold := sizeFold_spec data.files ds (strLen data.text) h hT
    constructor
    · intro htot
      simp only [validate_channel_data, hfold,
        if_pos (show strLen data.text + totalLen ds < USIZE_LIMIT by omega)]
      rw [if_neg (by omega)]
    · intro htot
      rcases Nat.lt_or_ge (strLen data.text + totalLen ds) USIZE_LIMIT with hlt | hge
      · simp only [validate_channel_data, hfold, if_pos hlt]
        rw [if_pos htot]
      · simp only [validate_channel_data, hfold, if_neg (by omega :
          ¬(strLen data.text + totalLen ds < USIZE_LIMIT))]
  · constructor
    · intro htot
      exfalso
      omega
    · intro _
      cases hfiles : data.files with
      | nil =>
        simp only [validate_channel_data, hfiles, sizeFold]
        rw [if_pos (by omega)]
      | cons f fs =>
        have hbig := sizeFold_big data.files ds (strLen data.text) h hT
        rw [hfiles] at hbig
        simp only [List.length_cons] at hbig
        rw [if_neg (by omega)] at hbig
        simp only [validate_channel_data, hfiles, hbig]

theorem claim_C3_witness :
    decodeAll [⟨"f", "f", "t", 1, "QQ=="⟩] = some [[65]] ∧
    ((strLen ("hi") + totalLen [[65]] = MAX_CHANNEL_BYTES →
        validate_channel_data ⟨"hi", [⟨"f", "f", "t", 1, "QQ=="⟩]⟩ = .ok ()) ∧
      (strLen ("hi") + totalLen [[65]] > MAX_CHANNEL_BYTES →
        validate_channel_data ⟨"hi", [⟨"f", "f", "t", 1, "QQ=="⟩]⟩ =
          .error .PayloadTooLarge)) :=
  ⟨by decide, claim_C3 ⟨"hi", [⟨"f", "f", "t", 1, "QQ=="⟩]⟩ [[65]] (by decide)⟩

/-- C5: `deserialize_channel` is total by construction, and on any input
that does not parse as a structured record it returns the fallback: the
whole raw string as `text`, no files, no password hash. -/
theorem claim_C5 (raw : String) (h : parseStoredChannel raw = none) :
    deserialize_channel raw = ⟨none, ⟨raw, []⟩⟩ := by
  rw [deserialize_channel, h]

theorem claim_C5_witness :
    deserialize_channel ("plain unstructured text") =
      ⟨none, ⟨"plain unstructured text", []⟩⟩ :=
  claim_C5 ("plain unstructured text") (by decide)

/-- C6: the codec round trip — deserializing a serialized `StoredChannel`
returns the original record (file sizes within `u64`, as the Rust types
guarantee). -/
theorem claim_C6 (sc : StoredChannel) (h : SizesValid sc) :
    deserialize_channel (serialize_channel sc) = sc :=
  deserialize_serialize sc h

theorem claim_C6_witness :
    SizesValid ⟨some ("h"), ⟨"hi", [⟨"f1", "a.txt", "text/plain", 3, "QUJD"⟩]⟩⟩ ∧
    deserialize_channel (serialize_channel
        ⟨some ("h"), ⟨"hi", [⟨"f1", "a.txt", "text/plain", 3, "QUJD"⟩]⟩⟩) =
      ⟨some ("h"), ⟨"hi", [⟨"f1", "a.txt", "text/plain", 3, "QUJD"⟩]⟩⟩ :=
  ⟨by decide,
    claim_C6 ⟨some ("h"), ⟨"hi", [⟨"f1", "a.txt", "text/plain", 3, "QUJD"⟩]⟩⟩ (by decide)⟩

/-- C9: every generated channel identifier — the first 8 characters of the
UUID-v4 simple form built from 16 random bytes — has length exactly 8 and
consists of lowercase hexadecimal digits only. -/
theorem claim_C9 (r : List Nat) (hlen : r.length = 16) (hbytes : ∀ b ∈ r, b < 256) :
    (generate_channel_id r).length = 8 ∧
      ∀ c ∈ (generate_channel_id r).data, c ∈ (("0123456789abcdef").data) := by
  have htake : (uuid_v4_bytes r).take 4 = r.take 4 := by
    rw [uuid_v4_bytes, take_set_of_le _ _ _ _ (by omega), take_set_of_le _ _ _ _ (by omega)]
  have hlen4 : ((uuid_v4_bytes r).take 4).length = 4 := by
    rw [List.length_take]
    simp only [uuid_v4_bytes, List.length_set, hlen]
    omega
  have hkey : (bytesHex (uuid_v4_bytes r)).take 8 = bytesHex (r.take 4) := by
    calc (bytesHex (uuid_v4_bytes r)).take 8
        = (bytesHex ((uuid_v4_bytes r).take 4 ++ (uuid_v4_bytes r).drop 4)).take 8 := by
          rw [List.take_append_drop]
      _ = (bytesHex ((uuid_v4_bytes r).take 4) ++ bytesHex ((uuid_v4_bytes r).drop 4)).take 8 := by
          rw [bytesHex_append]
      _ = bytesHex ((uuid_v4_bytes r).take 4) := by
          apply List.take_left'
          rw [bytesHex_length, hlen4]
      _ = bytesHex (r.take 4) := by rw [htake]
  constructor
  · show ((bytesHex (uuid_v4_bytes r)).take 8).length = 8
    rw [hkey, bytesHex_length, List.length_take, hlen]
    omega
  · intro c hc
    rw [show (generate_channel_id r).data = (bytesHex (uuid_v4_bytes r)).take 8 from rfl,
      hkey, bytesHex] at hc
    obtain ⟨l, hl, hcl⟩ := List.mem_flatten.mp hc
    obtain ⟨b, hb, rfl⟩ := List.mem_map.mp hl
    have hb256 : b < 256 := hbytes b (List.mem_of_mem_take hb)
    simp only [byteHexChars, List.mem_cons, List.mem_singleton] at hcl
    rcases hcl with rfl | rfl | hfalse
    · exact hexDigitChar_mem_charset (by omega)
    · exact hexDigitChar_mem_charset (by omega)
    · exact absurd hfalse (List.not_mem_nil _)

theorem claim_C9_witness :
    (generate_channel_id (List.range 16)).length = 8 ∧
      ∀ c ∈ (generate_channel_id (List.range 16)).data, c ∈ (("0123456789abcdef").data) :=
  claim_C9 (List.range 16) (by decide) (by decide)

/-- C2 (counterexample): with the store reporting a negative remaining TTL
(-2: key expired between `GET` and `TTL`), the password-enabled fetch
handler succeeds and returns `ttl_seconds = -2` instead of the configured
default — the claimed clamping does not happen in this handler. -/
theorem claim_C2_counterexample :
    (fetch_channel DEFAULT_CHANNEL_TTL_SECONDS ("a1b2c3d4") none (some ("x"))
        (.ok (-2))).1 = .ok ⟨"a1b2c3d4", "x", [], -2⟩ ∧
    ((-2 : Int) < 0) ∧ ((-2 : Int) ≠ (DEFAULT_CHANNEL_TTL_SECONDS : Int)) := by
  refine ⟨by rfl, by decide, by decide⟩

/-- C2 (amended): on success the fetch handlers return the TTL read from
the store before issuing the refresh, falling back to the configured
default only when the store cannot report it (an error reply); a negative
reported value is passed through unchanged by the password-enabled handler,
and clamped to the default by the legacy `lib.rs` handler. -/
theorem claim_C2 (ttl : Nat) (id : String) (pw : Option String) (raw : String)
    (ttlReply : Except Unit Int) :
    (∀ resp b, fetch_channel ttl id pw (some raw) ttlReply = (.ok resp, b) →
      resp.ttl_seconds =
        (match ttlReply with
         | .ok v => v
         | .error _ => (ttl : Int)) ∧ b = true) ∧
    (∀ resp b, fetch_channel_legacy ttl id (some raw) ttlReply = (.ok resp, b) →
      resp.ttl_seconds =
        (match ttlReply with
         | .ok v => if v < 0 then (ttl : Int) else v
         | .error _ => (ttl : Int)) ∧ b = true) := by
  constructor
  · intro resp b h
    simp only [fetch_channel] at h
    by_cases hv : verify_channel_password (deserialize_channel raw).password_hash pw
    · rw [if_pos hv] at h
      simp only [Prod.mk.injEq, Except.ok.injEq] at h
      obtain ⟨hresp, hb⟩ := h
      subst hb
      rw [← hresp]
      exact ⟨rfl, rfl⟩
    · rw [if_neg hv] at h
      simp at h
  · intro resp b h
    simp only [fetch_channel_legacy] at h
    simp only [Prod.mk.injEq, Except.ok.injEq] at h
    obtain ⟨hresp, hb⟩ := h
    subst hb
    rw [← hresp]
    refine ⟨?_, rfl⟩
    cases ttlReply with
    | ok v => rfl
    | error e =>
      show (if (ttl : Int) < 0 then (ttl : Int) else (ttl : Int)) = (ttl : Int)
      split <;> rfl

theorem claim_C2_witness :
    (∀ resp b, fetch_channel 900 ("c1") none (some ("x")) (.error ()) = (.ok resp, b) →
      resp.ttl_seconds =
        (match (.error () : Except Unit Int) with
         | .ok v => v
         | .error _ => ((900 : Nat) : Int)) ∧ b = true) ∧
    (∀ resp b, fetch_channel_legacy 900 ("c1") (some ("x")) (.error ()) = (.ok resp, b) →
      resp.ttl_seconds =
        (match (.error () : Except Unit Int) with
         | .ok v => if v < 0 then ((900 : Nat) : Int) else v
         | .error _ => ((900 : Nat) : Int)) ∧ b = true) :=
  claim_C2 900 ("c1") none ("x") (.error ())

/-- C4 (counterexample): a `ChannelData` containing an invalid-base64 file
can still be rejected as `PayloadTooLarge`: with a text of `usize::MAX`
(2^64 - 1) bytes — a representable Rust `String` length — and a valid
1-byte file before the invalid one, the `checked_add` for the valid file
overflows, so the overflow is reported before the invalid file is reached
and the result is not `InvalidFileData` as the claim requires.  The first
conjunct records that the text length stays within `usize`. -/
theorem claim_C4_counterexample :
    strLen (String.mk (List.replicate (USIZE_LIMIT - 1) ('a'))) < USIZE_LIMIT ∧
    base64Decode (("!").data) = none ∧
    validate_channel_data
        ⟨String.mk (List.replicate (USIZE_LIMIT - 1) ('a')),
          [⟨"g", "g", "t", 1, "QQ=="⟩, ⟨"b", "b", "t", 0, "!"⟩]⟩ =
      .error .PayloadTooLarge ∧
    (AppError.PayloadTooLarge ≠ AppError.InvalidFileData) := by
  have hT : strLen (String.mk (List.replicate (USIZE_LIMIT - 1) ('a'))) = USIZE_LIMIT - 1 := by
    show (utf8Bytes (List.replicate (USIZE_LIMIT - 1) ('a'))).length = USIZE_LIMIT - 1
    rw [utf8Bytes_replicate, List.length_replicate]
  refine ⟨by rw [hT]; decide, by decide, ?_, by decide⟩
  have hfold : sizeFold [⟨"g", "g", "t", 1, "QQ=="⟩, ⟨"b", "b", "t", 0, "!"⟩]
      (USIZE_LIMIT - 1) = .error .PayloadTooLarge := by
    simp only [sizeFold, show base64Decode (("QQ==").data) = some [65] from by decide,
      show checkedAdd (USIZE_LIMIT - 1) ([(65 : Nat)] : List Nat).length = none
        from by decide]
  have gen : ∀ (t : String) (fl : List ChannelFile), strLen t = USIZE_LIMIT - 1 →
      sizeFold fl (USIZE_LIMIT - 1) = .error .PayloadTooLarge →
      validate_channel_data ⟨t, fl⟩ = .error .PayloadTooLarge := by
    intro t fl ht hf
    simp only [validate_channel_data]
    rw [ht, hf]
  exact gen _ _ hT hfold

/-- C4 (amended): whenever some file fails base64 decoding and the
size accumulation over the files before it does not overflow, validation
returns `InvalidFileData` — produced at the first invalid file, regardless
of its declared `size` and of everything after it.  (When an earlier
checked addition overflows first, the result is `PayloadTooLarge` instead,
as the C4 counterexample shows.) -/
theorem claim_C4 (data : ChannelData) (pre : List ChannelFile) (f : ChannelFile)
    (post : List ChannelFile) (ds : List (List Nat))
    (hsplit : data.files = pre ++ f :: post)
    (hpre : decodeAll pre = some ds)
    (hbad : base64Decode f.data_base64.data = none)
    (hnoovf : strLen data.text + totalLen ds < USIZE_LIMIT) :
    validate_channel_data data = .error .InvalidFileData := by
  have hfold := sizeFold_spec pre ds (strLen data.text) hpre (by omega)
  rw [if_pos hnoovf] at hfold
  simp only [validate_channel_data, hsplit, sizeFold_append, hfold]
  simp only [sizeFold, hbad]

theorem claim_C4_witness :
    validate_channel_data ⟨"", [⟨"g", "g", "t", 1, "QQ=="⟩, ⟨"b", "b", "t", 9, "!"⟩]⟩ =
      .error .InvalidFileData :=
  claim_C4 ⟨"", [⟨"g", "g", "t", 1, "QQ=="⟩, ⟨"b", "b", "t", 9, "!"⟩]⟩
    [⟨"g", "g", "t", 1, "QQ=="⟩] ⟨"b", "b", "t", 9, "!"⟩ [] [[65]]
    rfl (by decide) (by decide) (by decide)

/-- C7: when password verification fails for an existing channel, fetch and
update both return `InvalidChannelPassword`, the TTL refresh is not issued
(`false`), nothing is written (`none`), and the error responses carry no
channel contents. -/
theorem claim_C7 (ttl : Nat) (id : String) (provided : Option String)
    (payload : UpdateChannelRequest) (raw : String) (ttlReply : Except Unit Int)
    (h : verify_channel_password (deserialize_channel raw).password_hash provided = false) :
    fetch_channel ttl id provided (some raw) ttlReply =
      (.error .InvalidChannelPassword, false) ∧
    update_channel ttl id provided payload (some raw) =
      (.error .InvalidChannelPassword, none) := by
  constructor
  · simp [fetch_channel, h]
  · simp [update_channel, h]

theorem claim_C7_witness :
    fetch_channel 900 ("c1") none
        (some ("\x7b\"password_hash\":\"zzz\",\"text\":\"t\",\"files\":[]\x7d")) (.ok 5) =
      (.error .InvalidChannelPassword, false) ∧
    update_channel 900 ("c1") none ⟨"n", []⟩
        (some ("\x7b\"password_hash\":\"zzz\",\"text\":\"t\",\"files\":[]\x7d")) =
      (.error .InvalidChannelPassword, none) :=
  claim_C7 900 ("c1") none ⟨"n", []⟩
    ("\x7b\"password_hash\":\"zzz\",\"text\":\"t\",\"files\":[]\x7d") (.ok 5) (by decide)

/-- C8: a successful update writes back a record whose `password_hash`
equals the stored record's hash before the write, and only the embedded
`ChannelData` is replaced — no update can add, remove, or change a
channel's password. -/
theorem claim_C8 (ttl : Nat) (id : String) (provided : Option String)
    (payload : UpdateChannelRequest) (raw w : String)
    (hsizes : ∀ f ∈ payload.files, f.size < USIZE_LIMIT)
    (hup : (update_channel ttl id provided payload (some raw)).2 = some w) :
    (deserialize_channel w).password_hash = (deserialize_channel raw).password_hash ∧
    (deserialize_channel w).data = ⟨payload.text, payload.files⟩ := by
  simp only [update_channel] at hup
  by_cases hv : verify_channel_password (deserialize_channel raw).password_hash provided
  · rw [if_pos hv] at hup
    cases hval : validate_channel_data ⟨payload.text, payload.files⟩ with
    | error e =>
      rw [hval] at hup
      simp at hup
    | ok u =>
      rw [hval] at hup
      simp only [Option.some.injEq] at hup
      rw [← hup,
        deserialize_serialize
          { deserialize_channel raw with data := ⟨payload.text, payload.files⟩ }
          (fun f hf => hsizes f hf)]
      exact ⟨rfl, rfl⟩
  · rw [if_neg hv] at hup
    simp at hup

theorem claim_C8_witness :
    (deserialize_channel ((update_channel 900 ("c1") none ⟨"new", []⟩
        (some ("x"))).2.getD (""))).password_hash =
      (deserialize_channel ("x")).password_hash ∧
    (deserialize_channel ((update_channel 900 ("c1") none ⟨"new", []⟩
        (some ("x"))).2.getD (""))).data = ⟨"new", []⟩ :=
  claim_C8 900 ("c1") none ⟨"new", []⟩ ("x")
    ((update_channel 900 ("c1") none ⟨"new", []⟩ (some ("x"))).2.getD (""))
    (by decide) (by rfl)

/-- C10: every store write performed by `create_channel` carries a
password-protected record: its `password_hash` is `some` SHA-256 hex digest
(64 characters, hence never empty) of the freshly generated password, and
the successful creation response returns that password in plaintext.
There is no path that writes an unprotected channel. -/
theorem claim_C10 (ttl : Nat) (id password : String) (payload : CreateChannelRequest)
    (w : String) (hsizes : ∀ f ∈ payload.files, f.size < USIZE_LIMIT)
    (hw : (create_channel ttl id password payload).2 = some w) :
    (create_channel ttl id password payload).1 = .ok ⟨id, password, ttl⟩ ∧
    (deserialize_channel w).password_hash = some (hash_channel_password password) ∧
    hash_channel_password password ≠ "" := by
  simp only [create_channel] at hw ⊢
  cases hval : validate_channel_data ⟨payload.text.getD "", payload.files⟩ with
  | error e =>
    rw [hval] at hw
    exact Option.noConfusion hw
  | ok u =>
    rw [hval] at hw
    simp only [Option.some.injEq] at hw
    refine ⟨rfl, ?_, hash_channel_password_ne_empty password⟩
    rw [← hw,
      deserialize_serialize
        ⟨some (hash_channel_password password), ⟨payload.text.getD "", payload.files⟩⟩
        (fun f hf => hsizes f hf)]

theorem claim_C10_witness :
    (create_channel 900 ("c1") ("pw") ⟨some ("t"), []⟩).1 = .ok ⟨"c1", "pw", 900⟩ ∧
    (deserialize_channel ((create_channel 900 ("c1") ("pw")
        ⟨some ("t"), []⟩).2.getD (""))).password_hash =
      some (hash_channel_password ("pw")) ∧
    hash_channel_password ("pw") ≠ "" :=
  claim_C10 900 ("c1") ("pw") ⟨some ("t"), []⟩
    ((create_channel 900 ("c1") ("pw") ⟨some ("t"), []⟩).2.getD ("")) (by decide) (by rfl)
